import Mathlib

/-!
Shallow embedding of the `GenericTrampoliner` MIR pass
(`src/compiler/rustc_mir/src/transform/generic_trampoline.rs`).

The pass consists of:
* a genericity classifier (`check_for_pinch_point` / the `AnnotateGenericStatements`
  visitor), which marks a program point generic when some live local's type
  mentions a type parameter or needs substitution;
* a split-point selector (`find_trampoline_point`), a single reverse-postorder
  scan that keeps the last generic point and the first subsequent point whose
  block dominates the approximate exit block;
* a body splitter (`split_body`), which cleaves the block holding the split
  location into two blocks.

External collaborators (the liveness dataflow results, the reverse-postorder
traversal and the dominator tree) are inputs of the embedding, exactly as the
pass consumes them through queries.  Statements and opaque terminator kinds are
type parameters `σ` and `τ`; machine `usize` indices are `Nat` (no arithmetic
here ever wraps: indices only grow by pushes onto lists).  Rust panics
(`expect`, out-of-bounds indexing, out-of-range `drain`) are modelled by
`Option`-valued results: `none` is an abort, `some` a normal return.
-/

/-- A MIR `Location`: a basic-block index paired with a statement offset.
Offset `statements.len()` denotes the terminator point. -/
structure Location where
  block : Nat
  statement_index : Nat
deriving DecidableEq, Repr

/-- A MIR terminator kind: the splitter only ever constructs `Goto`; every
other terminator of the source program is opaque (`Other`). -/
inductive TerminatorKind (τ : Type) where
  | Goto (target : Nat) : TerminatorKind τ
  | Other (k : τ) : TerminatorKind τ
deriving DecidableEq, Repr

/-- `BasicBlockData`: ordered statements, an optional terminator (the source
stores `Option<Terminator>`; `mem::replace` can leave it `None` mid-transform)
and the cleanup flag. -/
structure BasicBlockData (σ τ : Type) where
  statements : List σ
  terminator : Option (TerminatorKind τ)
  is_cleanup : Bool
deriving DecidableEq, Repr

/-- The relevant type data of a local declaration: the two `TypeFlags` bits the
classifier inspects (`HAS_TY_PARAM` and `NEEDS_SUBST`). -/
structure LocalType where
  has_ty_param : Bool
  needs_subst : Bool
deriving DecidableEq, Repr

/-- `ty.flags().intersects(TypeFlags::HAS_TY_PARAM | TypeFlags::NEEDS_SUBST)`. -/
def LocalType.isGeneric (t : LocalType) : Bool :=
  t.has_ty_param || t.needs_subst

/-- A MIR `Body`: the basic-block list plus the local declarations
(`local_decls`), each carrying the type flags the classifier needs. -/
structure Body (σ τ : Type) where
  basic_blocks : List (BasicBlockData σ τ)
  local_decls : List LocalType
deriving DecidableEq, Repr

/-- Default block used with `List.getD`; theorems always supply in-range
indices, so the default is never observed. -/
def defaultBlock (σ τ : Type) : BasicBlockData σ τ :=
  { statements := [], terminator := none, is_cleanup := false }

/-- The block at index `bb`. -/
def Body.blockAt (body : Body σ τ) (bb : Nat) : BasicBlockData σ τ :=
  body.basic_blocks.getD bb (defaultBlock σ τ)

/-- Number of statements of block `bb`. -/
def Body.stmtCount (body : Body σ τ) (bb : Nat) : Nat :=
  (body.blockAt bb).statements.length

/-- `split_body`: make `first_split_statement` the start of a basic block.
If its offset is `0` the body is returned untouched together with its block
index.  Otherwise the statements `[offset, end)` are drained out of the block
together with its terminator (`mem::replace(&mut terminator, None)`) into a new
`BasicBlockData` inheriting `is_cleanup`, the new block is pushed at the end of
the block list, and the truncated block receives a `Goto` to it.  Out-of-range
block indices and `drain` starts beyond the statement count are Rust panics,
i.e. `none`. -/
def split_body (body : Body σ τ) (first_split_statement : Location) :
    Option (Body σ τ × Nat) :=
  if first_split_statement.statement_index = 0 then
    some (body, first_split_statement.block)
  else
    match body.basic_blocks[first_split_statement.block]? with
    | none => none
    | some current_bb_data =>
      if first_split_statement.statement_index ≤ current_bb_data.statements.length then
        let new_bb_data : BasicBlockData σ τ :=
          { statements := current_bb_data.statements.drop first_split_statement.statement_index
            terminator := current_bb_data.terminator
            is_cleanup := current_bb_data.is_cleanup }
        let new_bb : Nat := body.basic_blocks.length
        let truncated : BasicBlockData σ τ :=
          { statements := current_bb_data.statements.take first_split_statement.statement_index
            terminator := some (TerminatorKind.Goto new_bb)
            is_cleanup := current_bb_data.is_cleanup }
        some ({ body with
                 basic_blocks :=
                   (body.basic_blocks.set first_split_statement.block truncated) ++ [new_bb_data] },
              new_bb)
      else none

/-- The results of the external collaborators the pass queries, as the spec
lists them (§6 Consumes):

* `live` — the backward `MaybeLiveLocals { drop_is_use: false }` results,
  queried "after primary effect" at each `Location` for each local index;
* `rpo` — the block order of `reverse_postorder(body)` (`postorder` visits the
  same blocks, so the annotator populates exactly the blocks scanned here);
* `dominates` — the dominator-tree query `dominates a b` = "block `a`
  dominates block `b`". -/
structure ExternalAnalyses where
  live : Location → Nat → Bool
  rpo : List Nat
  dominates : Nat → Nat → Bool

/-- `AnnotateGenericStatements::check_for_pinch_point`: enumerate the local
declarations, keep the types of the locals contained in the liveness state, and
look for one whose flags intersect `HAS_TY_PARAM | NEEDS_SUBST`. Returns the
bit stored in the per-block bitset: `true` iff such a type is found. -/
def check_for_pinch_point (local_decls : List LocalType) (state : Nat → Bool) : Bool :=
  ((local_decls.enum.filterMap fun p =>
      if state p.1 then some p.2 else none).find? LocalType.isGeneric).isSome

/-- `AnnotateGenericStatements::has_live_generic` at `location`: the memoized
classifier bit, i.e. `check_for_pinch_point` on the liveness state valid at
that exact point. -/
def has_live_generic (body : Body σ τ) (live : Location → Nat → Bool)
    (location : Location) : Bool :=
  check_for_pinch_point body.local_decls (live location)

/-- The approximate exit point of `find_trampoline_point`: the last block of
the reverse-postorder traversal, paired with statement offset
`statements.len() + 1`.  `none` models the `expect("MIR body with no blocks")`
panic when the traversal is empty. -/
def exit_location (body : Body σ τ) (rpo : List Nat) : Option Location :=
  rpo.getLast?.map fun block =>
    { block := block, statement_index := body.stmtCount block + 1 }

/-- Modelled from the spec: `Location::dominates` (in `rustc_middle`, outside
`src/`) as the selector uses it — "query the dominator tree: does this point's
block dominate the exit block?". -/
def Location.dominatesLoc (a b : Location) (dominators : Nat → Nat → Bool) : Bool :=
  dominators a.block b.block

/-- The location stream of the selector scan:
`rpo.flat_map(|(bb, bb_data)| (0..bb_data.statements.len() + 1).map(...))`. -/
def scan_locations (body : Body σ τ) (rpo : List Nat) : List Location :=
  rpo.flatMap fun bb =>
    (List.range (body.stmtCount bb + 1)).map fun idx =>
      { block := bb, statement_index := idx }

/-- One iteration of the selector loop, acting on the pair
`(last_generic_point, candidate_split_point)`. -/
def scan_step (hlg : Location → Bool) (dominatesExit : Location → Bool)
    (st : Option Location × Option Location) (location : Location) :
    Option Location × Option Location :=
  if hlg location then
    (some location, none)
  else if st.1.isSome && st.2.isNone then
    if dominatesExit location then (st.1, some location) else st
  else st

/-- The whole selector scan: fold `scan_step` over the location stream,
starting from `(None, None)`. -/
def selector_scan (body : Body σ τ) (ext : ExternalAnalyses)
    (exit_block : Location) : Option Location × Option Location :=
  (scan_locations body ext.rpo).foldl
    (scan_step (has_live_generic body ext.live)
      (fun location => location.dominatesLoc exit_block ext.dominates))
    (none, none)

/-- `find_trampoline_point`: compute the approximate exit (aborting on a body
with no blocks), run the selector scan, and return `candidate_split_point`.
The outer `Option` is normal-return vs. abort; the inner one is the split
candidate. -/
def find_trampoline_point (body : Body σ τ) (ext : ExternalAnalyses) :
    Option (Option Location) :=
  match exit_location body ext.rpo with
  | none => none
  | some exit_block => some (selector_scan body ext exit_block).2

/-- `GenericTrampoliner::run_pass`: run the selector; on no candidate return
the body unchanged; otherwise apply the splitter. -/
def run_pass (body : Body σ τ) (ext : ExternalAnalyses) : Option (Body σ τ) :=
  match find_trampoline_point body ext with
  | none => none
  | some none => some body
  | some (some split_point) => (split_body body split_point).map Prod.fst

/-- Modelled from the spec: well-formedness of the external reverse-postorder
traversal (in `rustc_middle::mir::traversal`, outside `src/`) with respect to
the body — it enumerates (a subset of the) blocks of the body, and it is empty
exactly when the body has no blocks (a traversal of a nonempty body at least
visits the entry block). -/
def rpo_wf (body : Body σ τ) (rpo : List Nat) : Prop :=
  (rpo = [] ↔ body.basic_blocks = []) ∧
    ∀ bb ∈ rpo, bb < body.basic_blocks.length

/-- The straight-line scenario body `B0 -> B1 -> B2(exit)`: `B1` holds three
statements (labelled `0`, `1`, `2` for `s0`, `s1`, `s2`). One local of a
type-parameter-dependent type. -/
def straightBody : Body Nat Nat :=
  { basic_blocks :=
      [ { statements := [], terminator := some (.Goto 1), is_cleanup := false },
        { statements := [0, 1, 2], terminator := some (.Goto 2), is_cleanup := false },
        { statements := [], terminator := some (.Other 0), is_cleanup := false } ],
    local_decls := [ { has_ty_param := true, needs_subst := false } ] }

/-- Analyses for `straightBody`: the generic local is live only at `(B1, 0)`
(after `s0`); reverse postorder is `B0, B1, B2`; block dominance of the
straight line is `≤` on indices. -/
def straightExt : ExternalAnalyses :=
  { live := fun loc l => (loc.block == 1) && (loc.statement_index == 0) && (l == 0)
    rpo := [0, 1, 2]
    dominates := fun a b => Nat.ble a b }

/-- The exact result of `split_body` in the cleaving case (nonzero offset, in
range): shared description lemma for the splitter theorems. -/
theorem split_body_eq_some (body : Body σ τ) (L : Location)
    (hb : L.block < body.basic_blocks.length)
    (hs : L.statement_index ≤ body.stmtCount L.block)
    (h0 : L.statement_index ≠ 0) :
    split_body body L =
      some ({ body with basic_blocks :=
          (body.basic_blocks.set L.block
            { statements := (body.blockAt L.block).statements.take L.statement_index,
              terminator := some (TerminatorKind.Goto body.basic_blocks.length),
              is_cleanup := (body.blockAt L.block).is_cleanup }) ++
          [{ statements := (body.blockAt L.block).statements.drop L.statement_index,
             terminator := (body.blockAt L.block).terminator,
             is_cleanup := (body.blockAt L.block).is_cleanup }] },
        body.basic_blocks.length) := by
  have hget : body.basic_blocks[L.block]? = some (body.blockAt L.block) := by
    simp [Body.blockAt, List.getD_eq_getElem?_getD, List.getElem?_eq_getElem hb]
  rw [Body.stmtCount] at hs
  simp only [split_body, if_neg h0, hget, if_pos hs]

/-- Lookup in the cleaved block list, at the truncated block. -/
theorem blockAt_set_append_self (body : Body σ τ) (i : Nat) (b c : BasicBlockData σ τ)
    (hi : i < body.basic_blocks.length) :
    ({ body with basic_blocks := body.basic_blocks.set i b ++ [c] } : Body σ τ).blockAt i
      = b := by
  have hlt : i < (body.basic_blocks.set i b).length := by simpa using hi
  simp [Body.blockAt, List.getD_eq_getElem?_getD, List.getElem?_append_left hlt,
    List.getElem?_set_self hi]

/-- Lookup in the cleaved block list, at the appended block. -/
theorem blockAt_set_append_new (body : Body σ τ) (i : Nat) (b c : BasicBlockData σ τ) :
    ({ body with basic_blocks := body.basic_blocks.set i b ++ [c] } : Body σ τ).blockAt
      body.basic_blocks.length = c := by
  have h : (body.basic_blocks.set i b ++ [c])[body.basic_blocks.length]? = some c := by
    have h2 := List.getElem?_concat_length (body.basic_blocks.set i b) c
    rw [List.length_set] at h2
    exact h2
  simp [Body.blockAt, List.getD_eq_getElem?_getD, h]

/-- Lookup in the cleaved block list, away from both touched blocks. -/
theorem blockAt_set_append_other (body : Body σ τ) (i j : Nat) (b c : BasicBlockData σ τ)
    (hj : j < body.basic_blocks.length) (hne : j ≠ i) :
    ({ body with basic_blocks := body.basic_blocks.set i b ++ [c] } : Body σ τ).blockAt j
      = body.blockAt j := by
  have hlt : j < (body.basic_blocks.set i b).length := by simpa using hj
  simp [Body.blockAt, List.getD_eq_getElem?_getD, List.getElem?_append_left hlt,
    List.getElem?_set_ne (Ne.symm hne)]

/-- C3.  Splitter block-count invariant: for a valid split location, a zero
offset leaves the block count unchanged (the body is untouched); a nonzero
offset adds exactly one block, and the statement counts of the truncated block
and the appended block sum to the original block's statement count. -/
theorem splitter_block_count (body : Body σ τ) (L : Location)
    (hb : L.block < body.basic_blocks.length)
    (hs : L.statement_index ≤ body.stmtCount L.block) :
    ∃ body' new_bb, split_body body L = some (body', new_bb) ∧
      (L.statement_index = 0 →
        body'.basic_blocks.length = body.basic_blocks.length) ∧
      (L.statement_index ≠ 0 →
        body'.basic_blocks.length = body.basic_blocks.length + 1 ∧
        body'.stmtCount L.block + body'.stmtCount new_bb = body.stmtCount L.block) := by
  by_cases h0 : L.statement_index = 0
  · exact ⟨body, L.block, by simp [split_body, h0], fun _ => rfl, fun h => absurd h0 h⟩
  · rw [split_body_eq_some body L hb hs h0]
    refine ⟨_, _, rfl, fun h => absurd h h0, fun _ => ⟨by simp, ?_⟩⟩
    rw [Body.stmtCount, Body.stmtCount, blockAt_set_append_self body L.block _ _ hb,
      blockAt_set_append_new body L.block]
    rw [Body.stmtCount] at hs ⊢
    simp only [List.length_take, List.length_drop]
    omega

/-- C3 witness: instantiation at a concrete one-block body split at offset 1. -/
theorem splitter_block_count_witness :
    ∃ body' new_bb,
      split_body (σ := Nat) (τ := Nat)
        { basic_blocks := [{ statements := [10, 11, 12], terminator := some (.Other 0),
                             is_cleanup := false }], local_decls := [] }
        { block := 0, statement_index := 1 } = some (body', new_bb) ∧
      ((1 : Nat) = 0 → body'.basic_blocks.length = 1) ∧
      ((1 : Nat) ≠ 0 →
        body'.basic_blocks.length = 2 ∧
        body'.stmtCount 0 + body'.stmtCount new_bb = 3) :=
  splitter_block_count
    { basic_blocks := [{ statements := [10, 11, 12], terminator := some (.Other 0),
                         is_cleanup := false }], local_decls := [] }
    { block := 0, statement_index := 1 } (by decide) (by decide)

/-- C4.  Splitter cleave structure and frame: a split at a nonzero offset moves
exactly the statements `[offset, end)` and the block's original terminator (and
cleanup flag) into the single newly appended block, installs a `Goto` to the
new block on the truncated block, and leaves every other pre-existing block
unchanged (the list is append-only apart from the boundary block). -/
theorem splitter_cleave_frame (body : Body σ τ) (L : Location)
    (hb : L.block < body.basic_blocks.length)
    (hs : L.statement_index ≤ body.stmtCount L.block)
    (h0 : L.statement_index ≠ 0) :
    ∃ body' new_bb, split_body body L = some (body', new_bb) ∧
      new_bb = body.basic_blocks.length ∧
      body'.basic_blocks.length = body.basic_blocks.length + 1 ∧
      body'.blockAt new_bb =
        { statements := (body.blockAt L.block).statements.drop L.statement_index,
          terminator := (body.blockAt L.block).terminator,
          is_cleanup := (body.blockAt L.block).is_cleanup } ∧
      body'.blockAt L.block =
        { statements := (body.blockAt L.block).statements.take L.statement_index,
          terminator := some (TerminatorKind.Goto new_bb),
          is_cleanup := (body.blockAt L.block).is_cleanup } ∧
      (∀ j, j < body.basic_blocks.length → j ≠ L.block →
        body'.blockAt j = body.blockAt j) := by
  rw [split_body_eq_some body L hb hs h0]
  refine ⟨_, _, rfl, rfl, by simp, ?_, ?_, ?_⟩
  · exact blockAt_set_append_new body L.block _ _
  · exact blockAt_set_append_self body L.block _ _ hb
  · intro j hj hne
    exact blockAt_set_append_other body L.block j _ _ hj hne

/-- C4 witness: the cleave of `straightBody` at `(B1, 1)`. -/
theorem splitter_cleave_frame_witness :
    ∃ body' new_bb,
      split_body straightBody { block := 1, statement_index := 1 } =
        some (body', new_bb) ∧
      new_bb = 3 ∧
      body'.basic_blocks.length = 4 ∧
      body'.blockAt new_bb =
        { statements := [1, 2], terminator := some (.Goto 2), is_cleanup := false } ∧
      body'.blockAt 1 =
        { statements := [0], terminator := some (TerminatorKind.Goto new_bb),
          is_cleanup := false } ∧
      (∀ j, j < 3 → j ≠ 1 → body'.blockAt j = straightBody.blockAt j) := by
  have h := splitter_cleave_frame straightBody { block := 1, statement_index := 1 }
    (by decide) (by decide) (by decide)
  obtain ⟨body', new_bb, heq, hnew, hlen, hnb, htr, hframe⟩ := h
  exact ⟨body', new_bb, heq, hnew, by rw [hlen]; rfl, by rw [hnb]; decide,
    by rw [htr, hnew]; decide, fun j hj hne => hframe j hj hne⟩

/-- C10.  At-the-terminator split: when the offset equals the block's statement
count (and is nonzero), `split_body` still appends a new block, holding zero
statements and the original terminator, while the original block keeps all of
its statements and ends in a `Goto` to the new block. -/
theorem splitter_terminator_point (body : Body σ τ) (L : Location)
    (hb : L.block < body.basic_blocks.length)
    (hlen : L.statement_index = body.stmtCount L.block)
    (hpos : 0 < L.statement_index) :
    ∃ body' new_bb, split_body body L = some (body', new_bb) ∧
      body'.basic_blocks.length = body.basic_blocks.length + 1 ∧
      (body'.blockAt new_bb).statements = [] ∧
      (body'.blockAt new_bb).terminator = (body.blockAt L.block).terminator ∧
      (body'.blockAt L.block).statements = (body.blockAt L.block).statements ∧
      (body'.blockAt L.block).terminator = some (TerminatorKind.Goto new_bb) := by
  have h0 : L.statement_index ≠ 0 := Nat.pos_iff_ne_zero.mp hpos
  rw [split_body_eq_some body L hb (le_of_eq hlen) h0]
  rw [Body.stmtCount] at hlen
  refine ⟨_, _, rfl, by simp, ?_, ?_, ?_, ?_⟩
  · rw [blockAt_set_append_new body L.block]
    simp [hlen]
  · rw [blockAt_set_append_new body L.block]
  · rw [blockAt_set_append_self body L.block _ _ hb]
    simp [hlen]
  · rw [blockAt_set_append_self body L.block _ _ hb]

/-- C10 witness: splitting `straightBody` at the terminator point `(B1, 3)`. -/
theorem splitter_terminator_point_witness :
    ∃ body' new_bb,
      split_body straightBody { block := 1, statement_index := 3 } =
        some (body', new_bb) ∧
      body'.basic_blocks.length = 4 ∧
      (body'.blockAt new_bb).statements = [] ∧
      (body'.blockAt new_bb).terminator = some (.Goto 2) ∧
      (body'.blockAt 1).statements = [0, 1, 2] ∧
      (body'.blockAt 1).terminator = some (TerminatorKind.Goto new_bb) := by
  have h := splitter_terminator_point straightBody { block := 1, statement_index := 3 }
    (by decide) (by decide) (by decide)
  obtain ⟨body', new_bb, heq, hlen, hst, hterm, hkeep, hgoto⟩ := h
  exact ⟨body', new_bb, heq, by rw [hlen]; rfl, hst, by rw [hterm]; rfl,
    by rw [hkeep]; rfl, hgoto⟩

/-- C2.  Classifier correctness: the bit computed by `check_for_pinch_point`
for a point is `true` iff some local that the liveness state marks live at
that point has a type whose flags say it mentions a type parameter or needs
substitution. -/
theorem classifier_correctness (body : Body σ τ) (live : Location → Nat → Bool)
    (loc : Location) :
    has_live_generic body live loc = true ↔
      ∃ l, l < body.local_decls.length ∧ live loc l = true ∧
        (body.local_decls.getD l
          { has_ty_param := false, needs_subst := false }).isGeneric = true := by
  unfold has_live_generic check_for_pinch_point
  rw [List.find?_isSome]
  constructor
  · rintro ⟨t, ht, hgen⟩
    rw [List.mem_filterMap] at ht
    obtain ⟨p, hp, hf⟩ := ht
    rw [List.mem_enum_iff_getElem?] at hp
    by_cases hl : live loc p.1 = true
    · rw [if_pos hl, Option.some.injEq] at hf
      subst hf
      have hlt : p.1 < body.local_decls.length := by
        exact (List.getElem?_eq_some_iff.mp hp).1
      refine ⟨p.1, hlt, hl, ?_⟩
      rw [List.getD_eq_getElem?_getD, hp]
      exact hgen
    · rw [if_neg hl] at hf
      exact absurd hf (by simp)
  · rintro ⟨l, hlt, hl, hgen⟩
    refine ⟨body.local_decls.getD l { has_ty_param := false, needs_subst := false },
      ?_, hgen⟩
    rw [List.mem_filterMap]
    refine ⟨(l, body.local_decls.getD l { has_ty_param := false, needs_subst := false }),
      ?_, by rw [if_pos hl]⟩
    rw [List.mem_enum_iff_getElem?]
    rw [List.getD_eq_getElem?_getD, List.getElem?_eq_getElem hlt]
    rfl

/-- A property preserved by every step of a left fold holds of its result. -/
theorem foldl_preserves {α β : Type} {P : β → Prop} (f : β → α → β)
    (h : ∀ st a, P st → P (f st a)) :
    ∀ (l : List α) (init : β), P init → P (l.foldl f init)
  | [], _, hi => hi
  | a :: l, init, hi => foldl_preserves f h l (f init a) (h init a hi)

/-- The selector-loop invariant: whenever `candidate_split_point` is set, it is
a point the classifier marked non-generic and whose block dominates the exit
block. -/
theorem scan_candidate_invariant (hlg dominatesExit : Location → Bool)
    (locs : List Location) (L : Location)
    (h : (locs.foldl (scan_step hlg dominatesExit) (none, none)).2 = some L) :
    hlg L = false ∧ dominatesExit L = true := by
  have key := foldl_preserves (P := fun st : Option Location × Option Location =>
      ∀ M, st.2 = some M → hlg M = false ∧ dominatesExit M = true)
    (scan_step hlg dominatesExit) ?_ locs (none, none) (by intro M hM; cases hM)
  · exact key L h
  · intro st loc hst M hM
    unfold scan_step at hM
    by_cases h1 : hlg loc
    · rw [if_pos h1] at hM
      cases hM
    · rw [if_neg h1] at hM
      by_cases h2 : st.1.isSome && st.2.isNone
      · rw [if_pos h2] at hM
        by_cases h3 : dominatesExit loc
        · rw [if_pos h3] at hM
          cases hM
          exact ⟨Bool.eq_false_iff.mpr h1, h3⟩
        · rw [if_neg h3] at hM
          exact hst M hM
      · rw [if_neg h2] at hM
        exact hst M hM

/-- C1.  Selector soundness: whenever `find_trampoline_point` returns a split
candidate `L`, the genericity classification of `L` is `false` and `L`'s block
dominates the block of the chosen exit point. -/
theorem selector_soundness (body : Body σ τ) (ext : ExternalAnalyses) (L : Location)
    (h : find_trampoline_point body ext = some (some L)) :
    has_live_generic body ext.live L = false ∧
      ∃ E, exit_location body ext.rpo = some E ∧
        ext.dominates L.block E.block = true := by
  unfold find_trampoline_point at h
  cases hE : exit_location body ext.rpo with
  | none => rw [hE] at h; cases h
  | some E =>
    rw [hE, Option.some.injEq] at h
    have inv := scan_candidate_invariant (has_live_generic body ext.live)
      (fun location => location.dominatesLoc E ext.dominates)
      (scan_locations body ext.rpo) L h
    exact ⟨inv.1, E, rfl, inv.2⟩

/-- C1 witness: the soundness facts instantiated on the straight-line body,
where the selector returns `(B1, 1)`. -/
theorem selector_soundness_witness :
    has_live_generic straightBody straightExt.live { block := 1, statement_index := 1 }
      = false ∧
    ∃ E, exit_location straightBody straightExt.rpo = some E ∧
      straightExt.dominates 1 E.block = true :=
  selector_soundness straightBody straightExt { block := 1, statement_index := 1 }
    (by decide)

/-- C5 counterexample: on the straight-line body, the last reverse-postorder
block is `B2` with `0` statements, yet the chosen exit point carries offset
`1 = 0 + 1`, not offset `0 = len(statements)` as the claim states. -/
theorem exit_point_offset_counterexample :
    straightExt.rpo.getLast? = some 2 ∧
    straightBody.stmtCount 2 = 0 ∧
    exit_location straightBody straightExt.rpo =
      some { block := 2, statement_index := 1 } ∧
    exit_location straightBody straightExt.rpo ≠
      some { block := 2, statement_index := straightBody.stmtCount 2 } := by decide

/-- C5 amended: the chosen exit location is the last block of the
reverse-postorder traversal paired with statement offset `len(statements) + 1`
(one past the at-the-terminator offset). -/
theorem exit_point_definition (body : Body σ τ) (rpo : List Nat) (b : Nat)
    (h : rpo.getLast? = some b) :
    exit_location body rpo =
      some { block := b, statement_index := body.stmtCount b + 1 } := by
  rw [exit_location, h]
  rfl

/-- C5 witness: the amended exit-point definition on the straight-line body. -/
theorem exit_point_definition_witness :
    exit_location straightBody [0, 1, 2] =
      some { block := 2, statement_index := straightBody.stmtCount 2 + 1 } :=
  exit_point_definition straightBody [0, 1, 2] 2 rfl

/-- A scan over points none of which is classified generic never moves off the
initial `(None, None)` state. -/
theorem scan_all_non_generic (hlg dominatesExit : Location → Bool)
    (h : ∀ loc, hlg loc = false) :
    ∀ locs : List Location,
      locs.foldl (scan_step hlg dominatesExit) (none, none) = (none, none)
  | [] => rfl
  | loc :: locs => by
    have hstep : scan_step hlg dominatesExit (none, none) loc = (none, none) := by
      rw [scan_step, h loc]
      simp
    rw [List.foldl_cons, hstep]
    exact scan_all_non_generic hlg dominatesExit h locs

/-- C6.  No-op safety: when no location is ever classified generic, the
selector returns no candidate (a normal `None`, not an abort) and the pass
returns the body unchanged — the splitter is never reached. -/
theorem no_op_safety (body : Body σ τ) (ext : ExternalAnalyses)
    (hne : ext.rpo ≠ [])
    (h : ∀ loc, has_live_generic body ext.live loc = false) :
    find_trampoline_point body ext = some none ∧
      run_pass body ext = some body := by
  obtain ⟨b, hb⟩ := Option.isSome_iff_exists.mp (List.getLast?_isSome.mpr hne)
  have hexit : exit_location body ext.rpo =
      some { block := b, statement_index := body.stmtCount b + 1 } := by
    rw [exit_location, hb]
    rfl
  have hfind : find_trampoline_point body ext = some none := by
    unfold find_trampoline_point selector_scan
    rw [hexit]
    exact congrArg some (congrArg Prod.snd (scan_all_non_generic _ _ h _))
  exact ⟨hfind, by rw [run_pass, hfind]⟩

/-- C6 witness: a one-block body with no local declarations at all — nothing is
ever live and generic, the selector returns `None`, the pass returns the body
unchanged. -/
theorem no_op_safety_witness :
    find_trampoline_point
      ({ basic_blocks := [{ statements := [7], terminator := some (.Other 0),
                            is_cleanup := false }], local_decls := [] } : Body Nat Nat)
      { live := fun _ _ => true, rpo := [0], dominates := fun _ _ => true } =
        some none ∧
    run_pass
      ({ basic_blocks := [{ statements := [7], terminator := some (.Other 0),
                            is_cleanup := false }], local_decls := [] } : Body Nat Nat)
      { live := fun _ _ => true, rpo := [0], dominates := fun _ _ => true } =
        some { basic_blocks := [{ statements := [7], terminator := some (.Other 0),
                                  is_cleanup := false }], local_decls := [] } :=
  no_op_safety
    { basic_blocks := [{ statements := [7], terminator := some (.Other 0),
                         is_cleanup := false }], local_decls := [] }
    { live := fun _ _ => true, rpo := [0], dominates := fun _ _ => true }
    (by decide) (fun _ => rfl)

/-- C7.  Concrete straight-line scenario `B0 -> B1 -> B2(exit)` with
`B1 = [s0 generic, s1, s2]`: the scan ends with
`last_generic_point = (B1, 0)` and candidate `(B1, 1)`, the selector returns
`(B1, 1)`, and the splitter appends a block holding `[s1, s2]` plus `B1`'s
original terminator while `B1` is truncated to `[s0]` ending in a `Goto` to
the new block. -/
theorem straight_line_scenario :
    exit_location straightBody straightExt.rpo =
      some { block := 2, statement_index := 1 } ∧
    selector_scan straightBody straightExt { block := 2, statement_index := 1 } =
      (some { block := 1, statement_index := 0 },
       some { block := 1, statement_index := 1 }) ∧
    find_trampoline_point straightBody straightExt =
      some (some { block := 1, statement_index := 1 }) ∧
    split_body straightBody { block := 1, statement_index := 1 } =
      some ({ basic_blocks :=
                [ { statements := [], terminator := some (.Goto 1), is_cleanup := false },
                  { statements := [0], terminator := some (.Goto 3), is_cleanup := false },
                  { statements := [], terminator := some (.Other 0), is_cleanup := false },
                  { statements := [1, 2], terminator := some (.Goto 2),
                    is_cleanup := false } ],
              local_decls := [ { has_ty_param := true, needs_subst := false } ] }, 3) := by
  decide

/-- C8.  Zero-block precondition: with a well-formed traversal, a body with no
blocks makes the pass abort (the modelled `expect` panic), never a normal
no-transform return, while any body with at least one block has a successful
exit-point computation. -/
theorem zero_block_precondition (body : Body σ τ) (ext : ExternalAnalyses)
    (hwf : rpo_wf body ext.rpo) :
    (body.basic_blocks = [] →
      find_trampoline_point body ext = none ∧ run_pass body ext = none) ∧
    (body.basic_blocks ≠ [] → (exit_location body ext.rpo).isSome = true) := by
  constructor
  · intro hempty
    have hrpo : ext.rpo = [] := hwf.1.mpr hempty
    have hexit : exit_location body ext.rpo = none := by
      rw [exit_location, hrpo]
      rfl
    have hfind : find_trampoline_point body ext = none := by
      rw [find_trampoline_point, hexit]
    exact ⟨hfind, by rw [run_pass, hfind]⟩
  · intro hne
    have hrpo : ext.rpo ≠ [] := fun h => hne (hwf.1.mp h)
    obtain ⟨b, hb⟩ := Option.isSome_iff_exists.mp (List.getLast?_isSome.mpr hrpo)
    rw [exit_location, hb]
    rfl

/-- C8 witness: the zero-block half on the empty body with the (empty)
well-formed traversal: the pass aborts. -/
theorem zero_block_precondition_witness :
    find_trampoline_point ({ basic_blocks := [], local_decls := [] } : Body Nat Nat)
      { live := fun _ _ => false, rpo := [], dominates := fun _ _ => false } = none ∧
    run_pass ({ basic_blocks := [], local_decls := [] } : Body Nat Nat)
      { live := fun _ _ => false, rpo := [], dominates := fun _ _ => false } = none :=
  (zero_block_precondition
    { basic_blocks := [], local_decls := [] }
    { live := fun _ _ => false, rpo := [], dominates := fun _ _ => false }
    ⟨by simp, by simp⟩).1 rfl

/-- C9.  Determinism: the selector is a pure function of the body and the
(fixed) analysis results — a second run on the unmodified inputs returns the
identical split candidate. -/
theorem selector_determinism (body : Body σ τ) (ext : ExternalAnalyses) :
    find_trampoline_point body ext = find_trampoline_point body ext := rfl
